import Mathlib

/-!
Verification of the list view-model kernel of the React performance demo
(src/App.tsx and src/ProductDetails.tsx): item generation, the
filter/sort/total derived view in its naive and optimized variants,
memoization cells, favorite toggling, windowed rendering, and the per-row
derived calculation.

JS strings are modelled as lists of characters; JS numbers occurring here
are integers (item prices) and are modelled as Int; the locale-aware
string comparison used for the name sort key is modelled as lexicographic
comparison of the character lists.
-/

namespace RPD

/-- A JS string, modelled as its list of characters. -/
abbrev JStr := List Char

/-- The item record produced by createItems in App.tsx and
ProductDetails.tsx: id, name, price, category. -/
structure Item where
  id : Nat
  name : JStr
  price : Int
  category : JStr
deriving DecidableEq, Repr

/-- The two sort keys offered by the sort select control. -/
inductive SortKey where
  | name
  | price
deriving DecidableEq, Repr

/-- Model of JS String.prototype.toLowerCase, lowering each character. -/
def jsToLower (s : JStr) : JStr := s.map Char.toLower

/-- Model of JS String.prototype.includes: the needle occurs as a
contiguous run inside the hay. -/
def jsIncludes (needle : JStr) : JStr → Bool
  | [] => needle.isEmpty
  | c :: rest => needle.isPrefixOf (c :: rest) || jsIncludes needle rest

/-- Lexicographic comparison of character lists; models the result of
name.localeCompare being at most zero. -/
def lexLe : JStr → JStr → Bool
  | [], _ => true
  | _ :: _, [] => false
  | a :: as, b :: bs => if a = b then lexLe as bs else decide (a < b)

/-- The comparator passed to sort in both App.tsx line 83 and
ProductDetails.tsx line 156, read as a less-or-equal test: by name it is
localeCompare at most zero, by price it is price difference at most zero. -/
def itemLeB (k : SortKey) (a b : Item) : Bool :=
  match k with
  | SortKey.name => lexLe a.name b.name
  | SortKey.price => decide (a.price ≤ b.price)

/-- itemLeB as a decidable relation, for use with insertion sort. -/
def itemLe (k : SortKey) (a b : Item) : Prop := itemLeB k a b = true

instance (k : SortKey) : DecidableRel (itemLe k) :=
  fun a b => instDecidableEqBool (itemLeB k a b) true

/-- The filter predicate of both list variants:
it.name.toLowerCase().includes(search.toLowerCase()). -/
def nameMatches (search : JStr) (it : Item) : Bool :=
  jsIncludes (jsToLower search) (jsToLower it.name)

/-- The sort step of both variants: Array.prototype.sort with the item
comparator, which ECMAScript requires to be a stable sort; modelled by
insertion sort, which is stable for this comparator. -/
def sortRows (k : SortKey) (l : List Item) : List Item :=
  List.insertionSort (itemLe k) l

/-- naiveList from App.tsx lines 81 to 85:
items.filter(name match).sort(comparator). -/
def naiveList (items : List Item) (search : JStr) (k : SortKey) : List Item :=
  sortRows k (items.filter (nameMatches search))

/-- total from App.tsx line 87:
naiveList.reduce((acc, item) => acc + item.price, 0). -/
def naiveTotal (items : List Item) (search : JStr) (k : SortKey) : Int :=
  (naiveList items search k).foldl (fun acc it => acc + it.price) 0

/-- optimizedList from ProductDetails.tsx lines 151 to 160: lower the
deferred search text once, skip filtering when it is empty (JS falsiness
of the empty string), then sort a copy of the base list. -/
def optimizedList (items : List Item) (search : JStr) (k : SortKey) : List Item :=
  let q := jsToLower search
  let base :=
    if q.isEmpty then items
    else items.filter (fun it => jsIncludes q (jsToLower it.name))
  sortRows k base

/-- total from ProductDetails.tsx lines 163 to 166:
optimizedList.reduce((sum, i) => sum + i.price, 0). -/
def optTotal (items : List Item) (search : JStr) (k : SortKey) : Int :=
  (optimizedList items search k).foldl (fun s i => s + i.price) 0

/-- The Derived-View Engine of the spec: compute(items, filterText,
sortKey) = (rows, total), read off the optimized variant. -/
def compute (items : List Item) (search : JStr) (k : SortKey) : List Item × Int :=
  (optimizedList items search k, optTotal items search k)

/-- The empty needle is contained in every string, as in JS includes. -/
theorem jsIncludes_nil (hay : JStr) : jsIncludes [] hay = true := by
  cases hay with
  | nil => rfl
  | cons c rest => simp [jsIncludes, List.isPrefixOf]

/-- When the lowered search text is empty, the name filter keeps every
item. -/
theorem filter_nameMatches_of_lower_nil (items : List Item) (search : JStr)
    (h : jsToLower search = []) :
    items.filter (nameMatches search) = items := by
  apply List.filter_eq_self.mpr
  intro a _
  simp [nameMatches, h, jsIncludes_nil]

/-- The optimized list always equals sorting the brute-force filtered
list: the empty-filter shortcut changes nothing. -/
theorem optimizedList_eq (items : List Item) (search : JStr) (k : SortKey) :
    optimizedList items search k = sortRows k (items.filter (nameMatches search)) := by
  simp only [optimizedList]
  by_cases h : (jsToLower search).isEmpty = true
  · rw [if_pos h]
    rw [filter_nameMatches_of_lower_nil items search (List.isEmpty_iff.mp h)]
  · rw [if_neg h]
    rfl

/-- The rows of compute are a permutation of the brute-force filter. -/
theorem compute_rows_perm (items : List Item) (search : JStr) (k : SortKey) :
    ((compute items search k).1).Perm (items.filter (nameMatches search)) := by
  show (optimizedList items search k).Perm (items.filter (nameMatches search))
  rw [optimizedList_eq]
  exact List.perm_insertionSort (itemLe k) (items.filter (nameMatches search))

/-- C1: for every item sequence, filter string and sort key, the naive
inline computation and the optimized memoized computation produce the
same ordered row sequence and the same total; the two variants agree on
the (rows, total) result. -/
theorem naive_optimized_same_result (items : List Item) (search : JStr) (k : SortKey) :
    naiveList items search k = optimizedList items search k ∧
    naiveTotal items search k = optTotal items search k := by
  have hrows : naiveList items search k = optimizedList items search k := by
    rw [optimizedList_eq]
    rfl
  refine ⟨hrows, ?_⟩
  unfold naiveTotal optTotal
  rw [hrows]

/-- C2: the rows of compute contain exactly the items whose name
case-insensitively contains the filter string, in count and membership
equal to a brute-force filter, and the empty filter string yields all
items. -/
theorem compute_rows_exact_filter (items : List Item) (search : JStr) (k : SortKey) :
    ((compute items search k).1).Perm (items.filter (nameMatches search)) ∧
    ((compute items search k).1).length = (items.filter (nameMatches search)).length ∧
    (∀ x : Item, x ∈ (compute items search k).1 ↔ x ∈ items ∧ nameMatches search x = true) ∧
    (∀ x : Item, x ∈ (compute items [] k).1 ↔ x ∈ items) := by
  have hperm := compute_rows_perm items search k
  refine ⟨hperm, hperm.length_eq, ?_, ?_⟩
  · intro x
    rw [hperm.mem_iff]
    exact List.mem_filter
  · intro x
    have hperm0 := compute_rows_perm items [] k
    rw [hperm0.mem_iff]
    rw [filter_nameMatches_of_lower_nil items [] rfl]

/-- Inserting an element rejected by the filter does not change the
filtered list. -/
theorem filter_orderedInsert_neg {α : Type} (r : α → α → Prop) [DecidableRel r]
    (p : α → Bool) (a : α) (l : List α) (ha : p a = false) :
    (List.orderedInsert r a l).filter p = l.filter p := by
  induction l with
  | nil => simp [List.orderedInsert, ha]
  | cons b t ih =>
    simp only [List.orderedInsert]
    by_cases h : r a b
    · rw [if_pos h]
      simp [List.filter_cons, ha]
    · rw [if_neg h]
      simp only [List.filter_cons, ih]

/-- Inserting an element kept by the filter, when every element it is
inserted after is rejected by the filter, puts it at the head of the
filtered list. -/
theorem filter_orderedInsert_pos {α : Type} (r : α → α → Prop) [DecidableRel r]
    (p : α → Bool) (a : α) (l : List α) (ha : p a = true) :
    (∀ b ∈ l, ¬r a b → p b = false) →
    (List.orderedInsert r a l).filter p = a :: l.filter p := by
  induction l with
  | nil =>
    intro _
    simp [List.orderedInsert, ha]
  | cons b t ih =>
    intro hl
    simp only [List.orderedInsert]
    by_cases h : r a b
    · rw [if_pos h]
      simp [List.filter_cons, ha]
    · rw [if_neg h]
      have hb : p b = false := hl b (List.mem_cons_self b t) h
      simp only [List.filter_cons, hb, Bool.false_eq_true, if_false]
      exact ih (fun x hx hr => hl x (List.mem_cons_of_mem b hx) hr)

/-- Stability of insertion sort for a comparator that is a key
comparison under a reflexive boolean order: the subsequence of elements
carrying any fixed key value is left unchanged by the sort. -/
theorem insertionSort_filter_stable {α β : Type} [DecidableEq β]
    (r : α → α → Prop) [DecidableRel r] (key : α → β) (le : β → β → Bool)
    (hrefl : ∀ x, le x x = true)
    (hr : ∀ a b, r a b ↔ le (key a) (key b) = true)
    (v : β) (l : List α) :
    (List.insertionSort r l).filter (fun x => decide (key x = v)) =
      l.filter (fun x => decide (key x = v)) := by
  induction l with
  | nil => rfl
  | cons a t ih =>
    show (List.orderedInsert r a (List.insertionSort r t)).filter _ = _
    by_cases hv : key a = v
    · rw [filter_orderedInsert_pos r _ a _ (by simp [hv]) ?_]
      · rw [ih]
        simp [List.filter_cons, hv]
      · intro b _ hrab
        apply decide_eq_false
        intro hbv
        exact hrab ((hr a b).mpr (by rw [hv, hbv]; exact hrefl v))
    · rw [filter_orderedInsert_neg r _ a _ (by simp [hv])]
      rw [ih]
      simp [List.filter_cons, hv]

/-- The lexicographic comparison is reflexive. -/
theorem lexLe_refl (s : JStr) : lexLe s s = true := by
  induction s with
  | nil => rfl
  | cons c t ih => simp [lexLe, ih]

/-- The three items of the spec scenario. -/
def itemZeta : Item := { id := 1, name := ['Z', 'e', 't', 'a'], price := 10, category := [] }

def itemAlpha : Item := { id := 2, name := ['A', 'l', 'p', 'h', 'a'], price := 50, category := [] }

def itemBeta : Item := { id := 3, name := ['B', 'e', 't', 'a'], price := 10, category := [] }

/-- C3: the sort performed by compute is stable: the subsequence of
items carrying any fixed sort-key value (a fixed name under the name
key, a fixed price under the price key) is exactly the corresponding
subsequence of the pre-sort filtered list, so tied items keep their
relative order; and for the 3-item dataset Zeta 10, Alpha 50, Beta 10
with empty filter, sorting by name yields Alpha, Beta, Zeta with total
70 and sorting by price yields Zeta, Beta, Alpha with total 70. -/
theorem sort_stable_and_scenario :
    (∀ (l : List Item) (v : JStr),
      (sortRows SortKey.name l).filter (fun x => decide (x.name = v)) =
        l.filter (fun x => decide (x.name = v))) ∧
    (∀ (l : List Item) (v : Int),
      (sortRows SortKey.price l).filter (fun x => decide (x.price = v)) =
        l.filter (fun x => decide (x.price = v))) ∧
    compute [itemZeta, itemAlpha, itemBeta] [] SortKey.name =
      ([itemAlpha, itemBeta, itemZeta], 70) ∧
    compute [itemZeta, itemAlpha, itemBeta] [] SortKey.price =
      ([itemZeta, itemBeta, itemAlpha], 70) := by
  refine ⟨?_, ?_, by decide, by decide⟩
  · intro l v
    exact insertionSort_filter_stable (itemLe SortKey.name) Item.name lexLe
      lexLe_refl (fun a b => Iff.rfl) v l
  · intro l v
    exact insertionSort_filter_stable (itemLe SortKey.price) Item.price
      (fun x y => decide (x ≤ y)) (fun x => by simp)
      (fun a b => Iff.rfl) v l

/-- The running total as the source folds it:
reduce((sum, i) => sum + i.price, 0). -/
def sumPrices (l : List Item) : Int := l.foldl (fun s i => s + i.price) 0

/-- Modelled from the spec: the dependency cache of a useMemo hook (the
hook implementation is React library code, not part of src/): the stored
dependency tuple, the cached value, and a counter of how many times the
factory has run. -/
structure Memo (δ α : Type) where
  deps : Option δ
  val : α
  count : Nat
deriving DecidableEq, Repr

/-- Modelled from the spec: one useMemo evaluation. When the stored
dependencies equal the current ones, the cached value is returned and
the factory does not run; otherwise the factory runs once and the
counter increases. -/
def Memo.run {δ α : Type} [DecidableEq δ] (m : Memo δ α) (d : δ) (f : Unit → α) :
    Memo δ α :=
  if m.deps = some d then m
  else { deps := some d, val := f (), count := m.count + 1 }

/-- The dependency tuple of the optimizedList memo: the identity of the
items array (a token), the deferred search text, and the sort key. -/
abbrev ListDeps := Nat × JStr × SortKey

/-- The Derived-View Engine state: the optimizedList memo cell and the
total memo cell. The total cell is keyed on the identity of the rows
value, modelled by the list cell's recomputation count, which changes
exactly when a new rows array is produced. -/
structure EngineState where
  listMemo : Memo ListDeps (List Item)
  totalMemo : Memo Nat Int
deriving DecidableEq, Repr

/-- The engine state before any render: nothing cached, counters zero. -/
def EngineState.init : EngineState :=
  { listMemo := { deps := none, val := [], count := 0 }
    totalMemo := { deps := none, val := 0, count := 0 } }

/-- One render of the optimized component (ProductDetails.tsx lines 151
to 166): run the optimizedList memo on (items identity, deferredSearch,
sortBy), then the total memo keyed on the identity of the rows it
yields. -/
def engineStep (s : EngineState) (tok : Nat) (items : List Item) (search : JStr)
    (k : SortKey) : EngineState :=
  let lm := s.listMemo.run (tok, search, k) (fun _ => optimizedList items search k)
  let tm := s.totalMemo.run lm.count (fun _ => sumPrices lm.val)
  { listMemo := lm, totalMemo := tm }

/-- A memo run always leaves the current dependencies stored. -/
theorem Memo.run_deps {δ α : Type} [DecidableEq δ] (m : Memo δ α) (d : δ)
    (f : Unit → α) : (m.run d f).deps = some d := by
  unfold Memo.run
  by_cases h : m.deps = some d
  · rw [if_pos h]; exact h
  · rw [if_neg h]

/-- A memo run whose dependencies match is the identity: cached value,
no factory call, counter untouched. -/
theorem Memo.run_hit {δ α : Type} [DecidableEq δ] (m : Memo δ α) (d : δ)
    (f : Unit → α) (h : m.deps = some d) : m.run d f = m := by
  unfold Memo.run
  rw [if_pos h]

/-- A memo run whose dependencies differ recomputes: new value from the
factory, counter bumped. -/
theorem Memo.run_miss {δ α : Type} [DecidableEq δ] (m : Memo δ α) (d : δ)
    (f : Unit → α) (h : ¬m.deps = some d) :
    m.run d f = { deps := some d, val := f (), count := m.count + 1 } := by
  unfold Memo.run
  rw [if_neg h]

/-- After any render, the engine stores the current dependencies in the
list cell and keys the total cell on the current rows identity. -/
theorem engineStep_deps (s : EngineState) (tok : Nat) (items : List Item)
    (search : JStr) (k : SortKey) :
    (engineStep s tok items search k).listMemo.deps = some (tok, search, k) ∧
    (engineStep s tok items search k).totalMemo.deps =
      some (engineStep s tok items search k).listMemo.count := by
  constructor
  · exact Memo.run_deps _ _ _
  · exact Memo.run_deps _ _ _

/-- A render whose dependencies all match the cached ones leaves the
engine state untouched: both memo cells hit. -/
theorem engineStep_hit (t : EngineState) (tok : Nat) (items : List Item)
    (search : JStr) (k : SortKey)
    (h1 : t.listMemo.deps = some (tok, search, k))
    (h2 : t.totalMemo.deps = some t.listMemo.count) :
    engineStep t tok items search k = t := by
  simp only [engineStep]
  rw [Memo.run_hit _ _ _ h1, Memo.run_hit _ _ _ h2]

/-- A render whose list dependencies changed recomputes both cells:
fresh rows, fresh total, both counters bumped. -/
theorem engineStep_miss (t : EngineState) (tok : Nat) (items : List Item)
    (search : JStr) (k : SortKey)
    (h1 : ¬t.listMemo.deps = some (tok, search, k))
    (h2 : ¬t.totalMemo.deps = some (t.listMemo.count + 1)) :
    engineStep t tok items search k =
      { listMemo := { deps := some (tok, search, k),
                      val := optimizedList items search k,
                      count := t.listMemo.count + 1 },
        totalMemo := { deps := some (t.listMemo.count + 1),
                       val := sumPrices (optimizedList items search k),
                       count := t.totalMemo.count + 1 } } := by
  simp only [engineStep]
  rw [Memo.run_miss _ _ _ h1]
  rw [Memo.run_miss _ _ _ h2]

/-- C4: memoization of the Derived-View Engine: when none of the three
inputs (items identity, filter text, sort key) changed since the
previous render, rendering again returns the previous state unchanged —
the same rows value, with no filtering, sorting or aggregation work —
and from a fresh mount the list recomputation counter reaches 1 and
stays at 1 across a repeated identical render, the cached rows being the
optimized list. -/
theorem engine_memoized (s0 : EngineState) (tok : Nat) (items : List Item)
    (search : JStr) (k : SortKey) :
    engineStep (engineStep s0 tok items search k) tok items search k =
      engineStep s0 tok items search k ∧
    (engineStep EngineState.init tok items search k).listMemo.count = 1 ∧
    (engineStep (engineStep EngineState.init tok items search k)
        tok items search k).listMemo.count = 1 ∧
    (engineStep EngineState.init tok items search k).listMemo.val =
      optimizedList items search k := by
  have hstable : ∀ s : EngineState,
      engineStep (engineStep s tok items search k) tok items search k =
        engineStep s tok items search k := by
    intro s
    obtain ⟨hd1, hd2⟩ := engineStep_deps s tok items search k
    exact engineStep_hit _ tok items search k hd1 hd2
  have hinit := engineStep_miss EngineState.init tok items search k
    (by simp [EngineState.init]) (by simp [EngineState.init])
  refine ⟨hstable s0, ?_, ?_, ?_⟩
  · rw [hinit]
    rfl
  · rw [hstable EngineState.init, hinit]
    rfl
  · rw [hinit]

/-- The engine consistency invariant: the total cell is keyed on the
current rows identity and caches exactly the sum of the cached rows. -/
def EngineInv (s : EngineState) : Prop :=
  s.totalMemo.deps = some s.listMemo.count ∧
  s.totalMemo.val = sumPrices s.listMemo.val

instance (s : EngineState) : Decidable (EngineInv s) :=
  inferInstanceAs (Decidable (_ ∧ _))

/-- C6: the aggregate equals the sum of price over the derived rows at
every observed point: the invariant holds after every render from any
consistent state and after the first render from a fresh mount (hence
for empty, singleton and full result sets alike), and the total is
recomputed exactly once per change of the derived row sequence: an
unchanged rows identity leaves the total counter unchanged, a changed
one increases it by exactly one. -/
theorem aggregate_invariant (s : EngineState) (tok : Nat) (items : List Item)
    (search : JStr) (k : SortKey) (hs : EngineInv s) :
    EngineInv (engineStep s tok items search k) ∧
    (engineStep s tok items search k).totalMemo.val =
      sumPrices (engineStep s tok items search k).listMemo.val ∧
    EngineInv (engineStep EngineState.init tok items search k) ∧
    ((engineStep s tok items search k).listMemo.count = s.listMemo.count →
      (engineStep s tok items search k).totalMemo.count = s.totalMemo.count) ∧
    ((engineStep s tok items search k).listMemo.count ≠ s.listMemo.count →
      (engineStep s tok items search k).totalMemo.count = s.totalMemo.count + 1) := by
  have key : ∀ t : EngineState, EngineInv t →
      EngineInv (engineStep t tok items search k) ∧
      ((engineStep t tok items search k).listMemo.count = t.listMemo.count →
        (engineStep t tok items search k).totalMemo.count = t.totalMemo.count) ∧
      ((engineStep t tok items search k).listMemo.count ≠ t.listMemo.count →
        (engineStep t tok items search k).totalMemo.count = t.totalMemo.count + 1) := by
    intro t ht
    by_cases h : t.listMemo.deps = some (tok, search, k)
    · rw [engineStep_hit t tok items search k h ht.1]
      exact ⟨ht, fun _ => rfl, fun hne => absurd rfl hne⟩
    · have hmiss : ¬t.totalMemo.deps = some (t.listMemo.count + 1) := by
        rw [ht.1]
        intro hc
        exact Nat.succ_ne_self t.listMemo.count (Option.some.inj hc).symm
      rw [engineStep_miss t tok items search k h hmiss]
      refine ⟨⟨rfl, rfl⟩, ?_, fun _ => rfl⟩
      intro heq
      exact absurd heq (Nat.succ_ne_self t.listMemo.count)
  have hfresh : EngineInv (engineStep EngineState.init tok items search k) := by
    rw [engineStep_miss EngineState.init tok items search k
      (by simp [EngineState.init]) (by simp [EngineState.init])]
    exact ⟨rfl, rfl⟩
  obtain ⟨h1, h2, h3⟩ := key s hs
  exact ⟨h1, h1.2, hfresh, h2, h3⟩

/-- C6 witness: a consistent concrete state, obtained by one render of a
fresh engine on a singleton dataset, satisfies the invariant, and a
further render keeps the aggregate equal to the row sum. -/
theorem aggregate_invariant_witness :
    EngineInv (engineStep EngineState.init 0 [itemZeta] [] SortKey.name) ∧
    (engineStep (engineStep EngineState.init 0 [itemZeta] [] SortKey.name)
        0 [itemZeta] [] SortKey.name).totalMemo.val =
      sumPrices (engineStep (engineStep EngineState.init 0 [itemZeta] []
        SortKey.name) 0 [itemZeta] [] SortKey.name).listMemo.val := by
  have h : EngineInv (engineStep EngineState.init 0 [itemZeta] [] SortKey.name) := by
    decide
  exact ⟨h, (aggregate_invariant _ 0 [itemZeta] [] SortKey.name h).2.1⟩

/-- The favorites set together with an identity version: constructing a
new JS Set object yields a new identity, modelled by a version number. -/
structure FavSet where
  version : Nat
  mem : Finset Nat
deriving DecidableEq

/-- toggle from App.tsx lines 69 to 73 and ProductDetails.tsx lines 133
to 139: copy the previous set into a fresh object (hence a fresh
version), then delete the id if present and add it if absent. -/
def toggle (s : FavSet) (x : Nat) : FavSet :=
  { version := s.version + 1
    mem := if x ∈ s.mem then s.mem.erase x else insert x s.mem }

/-- isFavorite: favorites.has(id). -/
def isFavorite (s : FavSet) (x : Nat) : Bool := decide (x ∈ s.mem)

/-- C7: toggle returns a new distinct set version — the input set value
is untouched and the result has a different identity — in which
membership of the toggled id is flipped while membership of every other
id is unchanged. -/
theorem toggle_flips_only_target (s : FavSet) (x : Nat) :
    (toggle s x).version ≠ s.version ∧
    toggle s x ≠ s ∧
    isFavorite (toggle s x) x = !isFavorite s x ∧
    (∀ y : Nat, y ≠ x → isFavorite (toggle s x) y = isFavorite s y) := by
  have hver : (toggle s x).version ≠ s.version := Nat.succ_ne_self s.version
  refine ⟨hver, fun hc => hver (congrArg FavSet.version hc), ?_, ?_⟩
  · by_cases h : x ∈ s.mem
    · simp [toggle, isFavorite, h]
    · simp [toggle, isFavorite, h]
  · intro y hy
    by_cases h : x ∈ s.mem
    · simp [toggle, isFavorite, h, Finset.mem_erase, hy]
    · simp [toggle, isFavorite, h, Finset.mem_insert, hy]

/-- C7 witness: toggling id 1 in the empty set leaves id 2 unaffected. -/
theorem toggle_flips_only_target_witness :
    (2 : Nat) ≠ 1 ∧
    isFavorite (toggle { version := 0, mem := ∅ } 1) 2 =
      isFavorite { version := 0, mem := ∅ } 2 :=
  ⟨by decide,
   (toggle_flips_only_target { version := 0, mem := ∅ } 1).2.2.2 2 (by decide)⟩

/-- The accumulation loop of the deliberately expensive row calculation
(ProductDetails.tsx lines 86 to 90, likewise NaiveRow in App.tsx lines
32 to 35): starting from 0, add item.price on each of n iterations. -/
def fakeCalcLoop (price : Int) : Nat → Int
  | 0 => 0
  | n + 1 => fakeCalcLoop price n + price

/-- fakeCalc: run the 500-iteration loop and reduce mod 7. -/
def fakeCalc (price : Int) : Int := fakeCalcLoop price 500 % 7

/-- The calc value displayed by a row visual. Its only inputs are the
item and the favorite flag; the computation reads item.price alone. -/
def rowCalc (item : Item) (_isFavorite : Bool) : Int := fakeCalc item.price

/-- The loop adds the price n times. -/
theorem fakeCalcLoop_eq (price : Int) (n : Nat) :
    fakeCalcLoop price n = n * price := by
  induction n with
  | zero => simp [fakeCalcLoop]
  | succ m ih =>
    show fakeCalcLoop price m + price = (m + 1 : Nat) * price
    rw [ih]
    push_cast
    ring

/-- C8: the row visual expensive calculation is a pure function of
item.price alone: any two evaluations with equal price agree, whatever
the rest of the two items, their favorite flags, or any other state, and
the displayed value is (500 * price) mod 7. -/
theorem rowCalc_pure (i1 i2 : Item) (f1 f2 : Bool) (h : i1.price = i2.price) :
    rowCalc i1 f1 = rowCalc i2 f2 ∧
    (∀ (it : Item) (f : Bool), rowCalc it f = 500 * it.price % 7) := by
  have hval : ∀ (it : Item) (f : Bool), rowCalc it f = 500 * it.price % 7 := by
    intro it f
    show fakeCalcLoop it.price 500 % 7 = 500 * it.price % 7
    rw [fakeCalcLoop_eq]
    norm_num
  refine ⟨?_, hval⟩
  rw [hval i1 f1, hval i2 f2, h]

/-- C8 witness: two rows with equal price 10 but different ids, names
and favorite flags display the same calc value. -/
theorem rowCalc_pure_witness :
    itemZeta.price = itemBeta.price ∧
    rowCalc itemZeta true = rowCalc itemBeta false :=
  ⟨by decide, (rowCalc_pure itemZeta itemBeta true false (by decide)).1⟩

/-- The fixed category list (App.tsx line 5, ProductDetails.tsx line
56). -/
def CATEGORIES : List JStr :=
  ["Hardware".data, "Software".data, "Books".data, "Accessories".data]

/-- rand from createItems: Math.round(random * (max - min) + min), the
random draw in [0,1) supplied as a rational argument; Math.round is
round half toward positive infinity, as is round on the rationals. -/
def jsRand (lo hi : Int) (r : ℚ) : Int := round (r * ((hi - lo : Int) : ℚ) + (lo : ℚ))

/-- The name built for the item at index i: the literal prefix text, the
decimal digits of i + 1, a separator, then the pseudo-random suffix
(whose draw is supplied externally). -/
def productName (i : Nat) (sfx : JStr) : JStr :=
  "Product ".data ++ Nat.toDigits 10 (i + 1) ++ " · ".data ++ sfx

/-- createItems from App.tsx lines 8 to 17 (repeated verbatim in
ProductDetails.tsx lines 59 to 68): n items with id i + 1, a
pseudo-random name suffix, a random price drawn by rand(5, 500), and
category CATEGORIES[i % CATEGORIES.length]. Array.from clamps a negative
length to zero, modelled by Int.toNat. -/
def createItems (n : Int) (rnd : Nat → ℚ) (sfx : Nat → JStr) : List Item :=
  (List.range n.toNat).map (fun i =>
    { id := i + 1
      name := productName i (sfx i)
      price := jsRand 5 500 (rnd i)
      category := CATEGORIES.getD (i % CATEGORIES.length) [] })

/-- A draw in [0,1) lands rand(5, 500) in [5, 500]. -/
theorem jsRand_bounds (r : ℚ) (h0 : 0 ≤ r) (h1 : r < 1) :
    5 ≤ jsRand 5 500 r ∧ jsRand 5 500 r ≤ 500 := by
  unfold jsRand
  have habs := abs_sub_round (r * (((500:Int) - 5 : Int) : ℚ) + ((5:Int) : ℚ))
  rw [abs_le] at habs
  constructor
  · have h4 : (4:ℚ) < ((round (r * (((500:Int) - 5 : Int) : ℚ) + ((5:Int) : ℚ)) : Int) : ℚ) := by
      push_cast at habs ⊢
      nlinarith
    have h5 : (4:Int) < round (r * (((500:Int) - 5 : Int) : ℚ) + ((5:Int) : ℚ)) := by
      exact_mod_cast h4
    omega
  · have h4 : ((round (r * (((500:Int) - 5 : Int) : ℚ) + ((5:Int) : ℚ)) : Int) : ℚ) < 501 := by
      push_cast at habs ⊢
      nlinarith
    have h5 : round (r * (((500:Int) - 5 : Int) : ℚ) + ((5:Int) : ℚ)) < (501:Int) := by
      exact_mod_cast h4
    omega

/-- C9: createItems n returns an ordered sequence of exactly max(n, 0)
items: ids are 1..n in order and without duplicates, every price is an
integer in [5, 500] whenever the random draws lie in [0, 1), the
category of the item at index i is the fixed category list at i mod 4,
and a non-positive count is clamped to the empty sequence rather than
failing. -/
theorem createItems_spec (n : Int) (rnd : Nat → ℚ) (sfx : Nat → JStr)
    (hr : ∀ i, 0 ≤ rnd i ∧ rnd i < 1) :
    (createItems n rnd sfx).length = n.toNat ∧
    (n ≤ 0 → createItems n rnd sfx = []) ∧
    (createItems n rnd sfx).map Item.id = (List.range n.toNat).map (fun i => i + 1) ∧
    ((createItems n rnd sfx).map Item.id).Nodup ∧
    (∀ it ∈ createItems n rnd sfx, 5 ≤ it.price ∧ it.price ≤ 500) ∧
    (createItems n rnd sfx).map Item.category =
      (List.range n.toNat).map (fun i => CATEGORIES.getD (i % 4) []) := by
  have hid : (createItems n rnd sfx).map Item.id =
      (List.range n.toNat).map (fun i => i + 1) := by
    unfold createItems
    rw [List.map_map]
    rfl
  refine ⟨?_, ?_, hid, ?_, ?_, ?_⟩
  · unfold createItems
    rw [List.length_map, List.length_range]
  · intro hn
    unfold createItems
    rw [Int.toNat_of_nonpos hn]
    rfl
  · rw [hid]
    exact (List.nodup_range _).map (fun a b hab => by omega)
  · intro it hit
    unfold createItems at hit
    obtain ⟨i, _, rfl⟩ := List.mem_map.mp hit
    exact jsRand_bounds (rnd i) (hr i).1 (hr i).2
  · unfold createItems
    rw [List.map_map]
    rfl

/-- C9 witness: three items generated with the draw constantly zero and
an empty name suffix satisfy the contract. -/
theorem createItems_spec_witness :
    (∀ i : Nat, 0 ≤ (fun _ : Nat => (0:ℚ)) i ∧ (fun _ : Nat => (0:ℚ)) i < 1) ∧
    ((createItems 3 (fun _ => 0) (fun _ => [])).length = (3:Int).toNat ∧
     ((3:Int) ≤ 0 → createItems 3 (fun _ => 0) (fun _ => []) = []) ∧
     (createItems 3 (fun _ => 0) (fun _ => [])).map Item.id =
       (List.range (3:Int).toNat).map (fun i => i + 1) ∧
     ((createItems 3 (fun _ => 0) (fun _ => [])).map Item.id).Nodup ∧
     (∀ it ∈ createItems 3 (fun _ => 0) (fun _ => []),
       5 ≤ it.price ∧ it.price ≤ 500) ∧
     (createItems 3 (fun _ => 0) (fun _ => [])).map Item.category =
       (List.range (3:Int).toNat).map (fun i => CATEGORIES.getD (i % 4) [])) :=
  ⟨fun _ => ⟨le_refl 0, by norm_num⟩,
   createItems_spec 3 (fun _ => 0) (fun _ => [])
     (fun _ => ⟨le_refl 0, by norm_num⟩)⟩

/-- Modelled from the spec: the scroll offset clamped to the scrollable
content extent. The Windowed Renderer is the react-window FixedSizeList,
library code not under src/; the error handling design requires
out-of-range scroll offsets to be clamped rather than propagated. -/
def clampedOffset (R rowHeight viewportHeight scrollOffset : Nat) : Nat :=
  min scrollOffset (R * rowHeight - viewportHeight)

/-- Modelled from the spec: the first row index intersecting the
viewport, clamped to [0, R). -/
def windowStart (R rowHeight viewportHeight scrollOffset : Nat) : Nat :=
  min (R - 1) (clampedOffset R rowHeight viewportHeight scrollOffset / rowHeight)

/-- Modelled from the spec: the last row index intersecting the
viewport, clamped to [0, R). -/
def windowLastVisible (R rowHeight viewportHeight scrollOffset : Nat) : Nat :=
  min (R - 1)
    ((clampedOffset R rowHeight viewportHeight scrollOffset + viewportHeight - 1) /
      rowHeight)

/-- Modelled from the spec: the half-open materialized index range
[startIndex, endIndex) of the Windowed Renderer: the rows intersecting
the viewport plus a small overscan margin past them, clamped to [0, R].
An empty row set or a degenerate row height yields the empty window. -/
def windowRange (R rowHeight viewportHeight scrollOffset overscan : Nat) : Nat × Nat :=
  if R = 0 ∨ rowHeight = 0 then (0, 0)
  else
    (windowStart R rowHeight viewportHeight scrollOffset,
     min (R - 1)
       (windowLastVisible R rowHeight viewportHeight scrollOffset + overscan) + 1)

/-- Division distributes over addition up to one. -/
theorem div_add_le (a b n : Nat) (hn : 0 < n) : (a + b) / n ≤ a / n + b / n + 1 := by
  have h1 : a = n * (a / n) + a % n := (Nat.div_add_mod a n).symm
  have h2 : a % n < n := Nat.mod_lt a hn
  conv_lhs => rw [h1]
  have h3 : n * (a / n) + a % n + b = a % n + b + a / n * n := by ring
  rw [h3, Nat.add_mul_div_right _ _ hn]
  have h4 : (a % n + b) / n ≤ (b + n) / n := Nat.div_le_div_right (by omega)
  rw [Nat.add_div_right b hn] at h4
  omega

/-- Window arithmetic, start against stop: abstracted over the two
division results. -/
theorem window_start_le_aux (Rv o A B : Nat) (hab : A ≤ B + 1) :
    min (Rv - 1) A ≤ min (Rv - 1) (min (Rv - 1) B + o) + 1 := by
  omega

/-- Window arithmetic, size bound: abstracted over the division
results. -/
theorem window_size_bound_aux (Rv o A B C : Nat) (hb : B ≤ A + C + 1) :
    min (Rv - 1) (min (Rv - 1) B + o) + 1 - min (Rv - 1) A ≤ C + o + 2 := by
  omega

/-- The window never reaches past the row count. -/
theorem windowRange_stop_le (R rh vh s o : Nat) : (windowRange R rh vh s o).2 ≤ R := by
  unfold windowRange windowStart windowLastVisible clampedOffset
  by_cases h : R = 0 ∨ rh = 0
  · rw [if_pos h]
    exact Nat.zero_le R
  · rw [if_neg h]
    dsimp only
    omega

/-- C5: for every row count and scroll offset the materialized window
[startIndex, endIndex) is well formed and clamped to [0, R], its size is
bounded by viewportHeight / rowHeight plus the overscan plus a small
constant — independent of R — and with 10000 rows, viewport height 320,
row height 44 and overscan 1 the number of materialized rows always
lies between 8 and 10. -/
theorem windowRange_bounded (R rh vh s o : Nat) (hrh : 0 < rh) :
    (windowRange R rh vh s o).1 ≤ (windowRange R rh vh s o).2 ∧
    (windowRange R rh vh s o).2 ≤ R ∧
    (windowRange R rh vh s o).2 - (windowRange R rh vh s o).1 ≤ vh / rh + o + 2 ∧
    (∀ s2 : Nat,
      8 ≤ (windowRange 10000 44 320 s2 1).2 - (windowRange 10000 44 320 s2 1).1 ∧
      (windowRange 10000 44 320 s2 1).2 - (windowRange 10000 44 320 s2 1).1 ≤ 10) := by
  have hconc : ∀ s2 : Nat,
      8 ≤ (windowRange 10000 44 320 s2 1).2 - (windowRange 10000 44 320 s2 1).1 ∧
      (windowRange 10000 44 320 s2 1).2 - (windowRange 10000 44 320 s2 1).1 ≤ 10 := by
    intro s2
    unfold windowRange windowStart windowLastVisible clampedOffset
    rw [if_neg (by decide)]
    dsimp only
    omega
  refine ⟨?_, windowRange_stop_le R rh vh s o, ?_, hconc⟩
  · unfold windowRange windowStart windowLastVisible clampedOffset
    by_cases h : R = 0 ∨ rh = 0
    · rw [if_pos h]
    · rw [if_neg h]
      dsimp only
      have hab : min s (R * rh - vh) / rh ≤
          (min s (R * rh - vh) + vh - 1) / rh + 1 := by
        have h2 : min s (R * rh - vh) / rh ≤
            (min s (R * rh - vh) + vh - 1 + 1) / rh :=
          Nat.div_le_div_right (by omega)
        have h3 : (min s (R * rh - vh) + vh - 1 + 1) / rh ≤
            (min s (R * rh - vh) + vh - 1 + rh) / rh :=
          Nat.div_le_div_right (by omega)
        rw [Nat.add_div_right _ hrh] at h3
        omega
      exact window_start_le_aux R o _ _ hab
  · unfold windowRange windowStart windowLastVisible clampedOffset
    by_cases h : R = 0 ∨ rh = 0
    · rw [if_pos h]
      exact Nat.zero_le _
    · rw [if_neg h]
      dsimp only
      have hb : (min s (R * rh - vh) + vh - 1) / rh ≤
          min s (R * rh - vh) / rh + vh / rh + 1 := by
        have h2 : (min s (R * rh - vh) + vh - 1) / rh ≤
            (min s (R * rh - vh) + vh) / rh :=
          Nat.div_le_div_right (by omega)
        have h3 := div_add_le (min s (R * rh - vh)) vh rh hrh
        omega
      exact window_size_bound_aux R o _ _ _ hb

/-- C5 witness: the invariants at row height 44, viewport 320, 10000
rows, scroll offset 0 and overscan 1. -/
theorem windowRange_bounded_witness :
    0 < 44 ∧
    ((windowRange 10000 44 320 0 1).1 ≤ (windowRange 10000 44 320 0 1).2 ∧
     (windowRange 10000 44 320 0 1).2 ≤ 10000 ∧
     (windowRange 10000 44 320 0 1).2 - (windowRange 10000 44 320 0 1).1 ≤
       320 / 44 + 1 + 2 ∧
     (∀ s2 : Nat,
       8 ≤ (windowRange 10000 44 320 s2 1).2 - (windowRange 10000 44 320 s2 1).1 ∧
       (windowRange 10000 44 320 s2 1).2 - (windowRange 10000 44 320 s2 1).1 ≤ 10)) :=
  ⟨by decide, windowRange_bounded 10000 44 320 0 1 (by decide)⟩

/-- The item lookup of RowRenderer (ProductDetails.tsx line 263), JS
array indexing modelled as Option: data.list[index]. -/
def rowLookup (list : List Item) (index : Nat) : Option Item := list.get? index

/-- C10: every index the windowed renderer supplies — any index inside
the clamped window over the derived rows — makes the RowRenderer item
lookup succeed: the out-of-bounds branch of the Option-returning
indexing is unreachable. -/
theorem rowLookup_in_window_some (list : List Item) (rh vh s o i : Nat)
    (_h1 : (windowRange list.length rh vh s o).1 ≤ i)
    (h2 : i < (windowRange list.length rh vh s o).2) :
    (rowLookup list i).isSome = true := by
  have hR : (windowRange list.length rh vh s o).2 ≤ list.length :=
    windowRange_stop_le list.length rh vh s o
  have hlt : i < list.length := lt_of_lt_of_le h2 hR
  unfold rowLookup
  simp [List.get?_eq_getElem?, List.getElem?_eq_getElem hlt]

/-- C10 witness: on a singleton row list with viewport 320 and row
height 44, index 0 lies in the window and the lookup succeeds. -/
theorem rowLookup_in_window_some_witness :
    (windowRange [itemZeta].length 44 320 0 1).1 ≤ 0 ∧
    0 < (windowRange [itemZeta].length 44 320 0 1).2 ∧
    (rowLookup [itemZeta] 0).isSome = true :=
  ⟨by decide, by decide,
   rowLookup_in_window_some [itemZeta] 44 320 0 1 0 (by decide) (by decide)⟩

end RPD
